import Mathlib

/-
  Verification of the schema-extraction and mock-response core of `ssg`
  (src/try1/src/main.rs).

  The source is a Rust program that scans a directory tree for TypeScript
  files, extracts "route comments" attached to interface declarations, and
  serves fake JSON data for each extracted entity.  The shallow embedding
  below mirrors `parse_typescript_file`, `scan_dir` and `generate_fake_data`
  over an explicit model of the parsed syntax tree (the oxc parser, the file
  system, the HTTP transport and the random generators are external
  collaborators; they appear as explicit data / function parameters).
-/

set_option autoImplicit false

namespace SSG

/-! ## Data model: the structs declared in main.rs (lines 103-120) -/

/-- Rust `enum TProp { Boolean, Number, String }` (main.rs lines 115-120). -/
inductive TProp where
  | Boolean
  | Number
  | String
  deriving DecidableEq, Repr

/-- Rust `struct Prop { id: String, ty: TProp }` (main.rs lines 109-113).
`Prop` is a reserved sort name in Lean, hence the trailing tick. -/
structure Prop' where
  id : String
  ty : TProp
  deriving DecidableEq, Repr

/-- Rust `struct Entity { route: String, props: Vec<Prop> }` (main.rs
lines 103-107). -/
structure Entity where
  route : String
  props : List Prop'
  deriving DecidableEq, Repr

/-! ## Model of the parsed syntax tree supplied by the oxc collaborator

Only the parts of the tree that `parse_typescript_file` inspects are
modelled: comments (content text plus the `attached_to` position), the
top-level statement list with span starts, interface bodies, property
signatures (including the optional marker, which the parsed tree records
even though the extraction code never reads it). -/

/-- The type held by a property signature's annotation.  The three keyword
types are matched exactly by the code (main.rs lines 52-72); every other
`TSType` variant (unions, references, arrays, literals, ...) falls into the
wildcard arm and is collapsed into `TSOther`. -/
inductive TSType where
  | TSBooleanKeyword
  | TSNumberKeyword
  | TSStringKeyword
  | TSOther
  deriving DecidableEq, Repr

/-- A `TSPropertySignature` node: `key_name` models `prop_sig.key.name()`
(`none` for computed keys), `optional` models the `?` marker recorded by the
parser, `type_annot` models `prop_sig.type_annotation` reduced to the inner
`TSType`. -/
structure TSPropertySignature where
  key_name : Option String
  optional : Bool
  type_annot : Option TSType
  deriving DecidableEq, Repr

/-- A member of an interface body: the code only distinguishes
`TSSignature::TSPropertySignature` from every other signature kind
(index, call, construct, method signatures), main.rs line 48. -/
inductive TSSignature where
  | TSPropertySignature (sig : TSPropertySignature)
  | OtherSignature
  deriving DecidableEq, Repr

/-- A `TSInterfaceDeclaration` reduced to its body member list
(`interface.body.body`, main.rs line 47). -/
structure TSInterfaceDeclaration where
  body : List TSSignature
  deriving DecidableEq, Repr

/-- A `Declaration` as matched at main.rs line 41: either an interface
declaration or any other declaration kind (function, class, variable,
type alias, ...), which fails the `if let` pattern and is skipped. -/
inductive Declaration where
  | TSInterfaceDeclaration (iface : TSInterfaceDeclaration)
  | OtherDeclaration
  deriving DecidableEq, Repr

/-- What `Statement::to_declaration` (main.rs line 41) sees: a statement is
either a declaration statement, or a non-declaration statement (expression
statement, if, loop, ...).  `to_declaration` is oxc's unchecked conversion,
`self.as_declaration().unwrap()`: on a `NonDecl` statement it panics. -/
inductive StatementKind where
  | Decl (d : Declaration)
  | NonDecl
  deriving DecidableEq, Repr

/-- A top-level statement with its span start (`x.span().start`). -/
structure Statement where
  span_start : Nat
  kind : StatementKind
  deriving DecidableEq, Repr

/-- A comment trivia node: `text` models
`comment.content_span().source_text(source_text)` (the content between the
comment markers) and `attached_to` the position oxc records as the start of
the token the comment is attached to. -/
structure Comment where
  text : String
  attached_to : Nat
  deriving DecidableEq, Repr

/-- The parsed program: `ret.program.comments` and `ret.program.body`. -/
structure Program where
  comments : List Comment
  body : List Statement
  deriving DecidableEq, Repr

/-- The oxc `ParserReturn`: the (possibly partial) program plus whether the
parser reported failure (`ret.errors` non-empty / `ret.panicked`).  The
extraction code reads only `ret.program` and never inspects the error
report. -/
structure ParserReturn where
  program : Program
  errors : Bool
  deriving DecidableEq, Repr

/-! ## Comment tokenization (main.rs lines 22-33)

`comment_text.split(" ")` splits on the one-character pattern `" "`, i.e. at
every space character (and only at spaces); `filter(|&x| !x.is_empty())`
drops the empty pieces.  The splitter is written over character lists so
that it is structural and computes by `rfl`. -/

/-- Split a character list at every character satisfying `p`, keeping empty
pieces (the semantics of Rust `str::split` with a one-character pattern). -/
def splitChars (p : Char → Bool) : List Char → List (List Char)
  | [] => [[]]
  | a :: rest =>
    match splitChars p rest with
    | [] => [[]]
    | t :: ts => if p a then [] :: t :: ts else (a :: t) :: ts

/-- `comment_text.split(" ").filter(|&x| !x.is_empty())` (main.rs line 23):
split the comment text at space characters and drop empty tokens. -/
def tokenize (text : String) : List String :=
  ((splitChars (fun c => c == ' ') text.toList).filter
    (fun t => !t.isEmpty)).map (fun t => String.mk t)

/-- `pat` is a contiguous leading block of `s`. -/
def leadsWith : List Char → List Char → Bool
  | [], _ => true
  | _ :: _, [] => false
  | a :: as, b :: bs => a == b && leadsWith as bs

/-- `pat` occurs contiguously somewhere in `s`. -/
def hasSub (pat : List Char) : List Char → Bool
  | [] => leadsWith pat []
  | b :: bs => leadsWith pat (b :: bs) || hasSub pat bs

/-- Rust `str::contains`: substring containment (main.rs line 26,
`decl.contains("route")`). -/
def strContains (s pat : String) : Bool :=
  hasSub pat.toList s.toList

/-- Main.rs lines 25-33: the first token must contain `"route"`, the second
token (if any) is the route path, taken verbatim; otherwise the comment is
skipped (`continue`). -/
def comment_route (text : String) : Option String :=
  match tokenize text with
  | [] => none
  | t0 :: rest =>
    if strContains t0 "route" then
      match rest with
      | r :: _ => some r
      | [] => none
    else none

/-! ## Property extraction from an interface body (main.rs lines 47-75) -/

/-- The body of the loop at main.rs lines 47-75: keep a member exactly when
it is a property signature with a key name, an explicit type annotation and
one of the three supported keyword types; the `optional` marker is never
inspected. -/
def extract_props : List TSSignature → List Prop'
  | [] => []
  | TSSignature.OtherSignature :: rest => extract_props rest
  | TSSignature.TSPropertySignature sig :: rest =>
    match sig.key_name, sig.type_annot with
    | some name, some t =>
      match t with
      | TSType.TSBooleanKeyword =>
        { id := name, ty := TProp.Boolean } :: extract_props rest
      | TSType.TSNumberKeyword =>
        { id := name, ty := TProp.Number } :: extract_props rest
      | TSType.TSStringKeyword =>
        { id := name, ty := TProp.String } :: extract_props rest
      | TSType.TSOther => extract_props rest
    | _, _ => extract_props rest

/-! ## Comment processing and `parse_typescript_file` (main.rs lines 13-81)

A Rust panic is modelled as `none`; `some x` is a normal return of `x`.
For one comment the result is `some none` (comment silently skipped),
`some (some e)` (entity `e` produced) or `none` (panic inside
`Statement::to_declaration`). -/

/-- One iteration of the comment loop (main.rs lines 21-79): check the
route tokens, find the statement whose span start equals `attached_to`,
convert it with `to_declaration` (panics on a non-declaration statement),
and keep it only when it is an interface declaration. -/
def process_comment (body : List Statement) (c : Comment) :
    Option (Option Entity) :=
  match comment_route c.text with
  | none => some none
  | some r =>
    match body.find? (fun s => s.span_start == c.attached_to) with
    | none => some none
    | some st =>
      match st.kind with
      | StatementKind.NonDecl => none
      | StatementKind.Decl d =>
        match d with
        | Declaration.TSInterfaceDeclaration iface =>
          some (some { route := r, props := extract_props iface.body })
        | Declaration.OtherDeclaration => some none

/-- The comment loop of `parse_typescript_file`, accumulating entities in
order; a panic at any comment aborts the whole call. -/
def extract_comments (body : List Statement) :
    List Comment → Option (List Entity)
  | [] => some []
  | c :: rest =>
    match process_comment body c with
    | none => none
    | some none => extract_comments body rest
    | some (some e) =>
      (extract_comments body rest).map (fun es => e :: es)

/-- `parse_typescript_file` (main.rs lines 13-81) over the parsed tree the
oxc collaborator returns.  The error report in `ret.errors` is never read;
`none` models a panic. -/
def parse_typescript_file (ret : ParserReturn) : Option (List Entity) :=
  extract_comments ret.program.body ret.program.comments

/-! ## `scan_dir` (main.rs lines 83-101)

Directory traversal and file reading are the file-system collaborator's
job; it yields the visited files in traversal order.  An entry is either a
readable file (its extension plus the parser's return for its text) or a
file-system failure, which `?` turns into an early `Err`. -/

/-- One visited file-system entry. -/
inductive FsEntry where
  | file (ext : String) (ret : ParserReturn)
  | ioError
  deriving Repr

/-- How a `scan_dir` call can abort: a propagated `fs` error (`?`,
main.rs lines 88-94) or a panic inside `parse_typescript_file`. -/
inductive ScanError where
  | ioError
  | panicked
  deriving DecidableEq, Repr

/-- `scan_dir` (main.rs lines 83-101): visit entries in order, extend the
entity list with the extraction result of every `.ts`/`.tsx` file, abort on
the first file-system error or panic. -/
def scan_dir : List FsEntry → Except ScanError (List Entity)
  | [] => Except.ok []
  | FsEntry.ioError :: _ => Except.error ScanError.ioError
  | FsEntry.file ext ret :: rest =>
    if ext == "ts" || ext == "tsx" then
      match parse_typescript_file ret with
      | none => Except.error ScanError.panicked
      | some es =>
        match scan_dir rest with
        | Except.ok more => Except.ok (es ++ more)
        | Except.error e => Except.error e
    else scan_dir rest


/-! ## JSON values and the mock responder (main.rs lines 122-140)

`generate_fake_data` builds a `serde_json::Value` object by assigning
`data[&prop.id] = value` for each property in order.

Modelled from the spec: the ordering of keys inside a `serde_json` object
is fixed by the `preserve_order` feature selected in the repository's
`Cargo.toml`, which is not under `src/`; the spec states that "synthesized
JSON keys are emitted in the same order" as the properties, so the object
is modelled as an insertion-order-preserving association list whose index
assignment overwrites an existing key in place and otherwise appends
(the semantics of `serde_json`'s `IndexMut` over an order-preserving map). -/

/-- A JSON value, restricted to the shapes `generate_fake_data` builds. -/
inductive JValue where
  | bool (b : Bool)
  | num (n : Int)
  | str (s : String)
  | obj (fields : List (String × JValue))
  deriving Repr

/-- `data[key] = value` on a JSON object: overwrite in place if the key is
present, append otherwise (see the section comment above). -/
def setKey : List (String × JValue) → String → JValue → List (String × JValue)
  | [], k, v => [(k, v)]
  | (k', v') :: rest, k, v =>
    if k' = k then (k', v) :: rest else (k', v') :: setKey rest k v

/-- Look a key up in a JSON object. -/
def getKey : List (String × JValue) → String → Option JValue
  | [], _ => none
  | (k', v') :: rest, k => if k' = k then some v' else getKey rest k

/-! ## The random-value collaborator

The random generators (`fake` crate) are external collaborators: one loop
iteration of `generate_fake_data` consumes one draw.  A draw carries a
random boolean (`Faker.fake::<bool>()`), a stream of random decimal digits
(each produced in `0..=9`, hence `Fin 10`) consumed by
`NumberWithFormat("###")`, and a random word (`lorem::Word()`). -/

/-- The random material consumed by one loop iteration. -/
structure RandomDraw where
  b : Bool
  digit : Nat → Fin 10
  word : String

/-- `fake::faker::number::en::NumberWithFormat`: replace the `i`-th `#` of
the format with the `i`-th random digit, keeping every other character (the
only format the code uses is `"###"`, which contains only `#`). -/
def fill_format (digit : Nat → Fin 10) : Nat → List Char → List Char
  | _, [] => []
  | i, c :: rest =>
    if c == '#' then
      Char.ofNat (48 + (digit i).val) :: fill_format digit (i + 1) rest
    else
      c :: fill_format digit i rest

/-- Rust `str::parse::<i64>()` restricted to the unsigned digit strings the
format produces: fails on an empty string or a non-digit character,
otherwise folds the decimal digits (sign handling and the i64 overflow
check are unreachable for three-character digit strings and are omitted). -/
def parse_i64 (s : List Char) : Option Int :=
  if s.isEmpty then none
  else if s.all Char.isDigit then
    some (Int.ofNat (s.foldl (fun a c => a * 10 + (c.toNat - 48)) 0))
  else none

/-- The `match prop.ty` at main.rs lines 126-135, synthesizing one value
from one draw; `none` models the panic of the `.unwrap()` on the parsed
number. -/
def fake_value (ty : TProp) (d : RandomDraw) : Option JValue :=
  match ty with
  | TProp.Boolean => some (JValue.bool d.b)
  | TProp.Number =>
    (parse_i64 (fill_format d.digit 0 "###".toList)).map JValue.num
  | TProp.String => some (JValue.str d.word)

/-- The property loop of `generate_fake_data` (main.rs lines 125-137):
iteration `i` synthesizes a value from draw `i` and assigns it under the
property's name. -/
def gen_loop (draws : Nat → RandomDraw) :
    List Prop' → Nat → List (String × JValue) → Option (List (String × JValue))
  | [], _, acc => some acc
  | p :: rest, i, acc =>
    match fake_value p.ty (draws i) with
    | none => none
    | some v => gen_loop draws rest (i + 1) (setKey acc p.id v)

/-- `generate_fake_data` (main.rs lines 122-140): start from `json!({})`
and run the property loop; the HTTP wrapper (`web::Json`) is the transport
collaborator's job and is not modelled. -/
def generate_fake_data (entity : Entity) (draws : Nat → RandomDraw) :
    Option JValue :=
  (gen_loop draws entity.props 0 []).map JValue.obj

/-! ## Definitions used to state the claims (following the spec's words) -/

/-- The spec's exact-match typing rule (spec 4.1 step 6): boolean-keyword →
Boolean, number-keyword → Number, string-keyword → String, everything else
unsupported. -/
def primOf : TSType → Option TProp
  | TSType.TSBooleanKeyword => some TProp.Boolean
  | TSType.TSNumberKeyword => some TProp.Number
  | TSType.TSStringKeyword => some TProp.String
  | TSType.TSOther => none

/-- The spec's per-member translation (spec 4.1 step 6): a member
contributes a property exactly when it is a property signature with an
identifier name, an explicit annotation and a supported primitive type. -/
def memberProp : TSSignature → Option Prop'
  | TSSignature.TSPropertySignature sig =>
    match sig.key_name, sig.type_annot with
    | some n, some t => (primOf t).map (fun p => { id := n, ty := p })
    | _, _ => none
  | TSSignature.OtherSignature => none

/-- Modelled from the spec: "splitting on whitespace (any whitespace
character, including tabs and newlines)" — the whitespace test the claimed
tokenization would use. -/
def isWhitespaceChar (c : Char) : Bool :=
  c == ' ' || c == '\t' || c == '\n' || c == '\r'

/-- Modelled from the spec: the claimed tokenization, splitting on any
whitespace character and discarding empty tokens; stated only to be
compared with `tokenize`, the tokenization the code performs. -/
def wsTokenize (text : String) : List String :=
  ((splitChars isWhitespaceChar text.toList).filter
    (fun t => !t.isEmpty)).map (fun t => String.mk t)

/-- Clear the parser's error report of a visited file, leaving the parsed
program untouched (used to state that `scan_dir` ignores parse failures). -/
def clear_errors : FsEntry → FsEntry
  | FsEntry.file ext ret => FsEntry.file ext { program := ret.program, errors := false }
  | FsEntry.ioError => FsEntry.ioError

/-- Pairs each list element with its index, starting at `i` (the draw
index bookkeeping of `gen_loop`). -/
def enumPairs {α : Type} : Nat → List α → List (Nat × α)
  | _, [] => []
  | i, a :: rest => (i, a) :: enumPairs (i + 1) rest

/-- The last element of a list, if any. -/
def lastOf {α : Type} : List α → Option α
  | [] => none
  | [a] => some a
  | _ :: b :: rest => lastOf (b :: rest)

/-- The value `fake_value` produces when it succeeds (it always does:
`fake_value_eq` below). -/
def fvalue : TProp → RandomDraw → JValue
  | TProp.Boolean, d => JValue.bool d.b
  | TProp.Number, d =>
    JValue.num (Int.ofNat
      (((d.digit 0).val * 10 + (d.digit 1).val) * 10 + (d.digit 2).val))
  | TProp.String, d => JValue.str d.word

/-- Does a synthesized value type-check against a property type (spec:
Boolean → true/false, Number → an integer, String → non-empty text)? -/
def typechecks : TProp → JValue → Bool
  | TProp.Boolean, JValue.bool _ => true
  | TProp.Number, JValue.num _ => true
  | TProp.String, JValue.str s => !s.isEmpty
  | _, _ => false

/-- Translate every element, succeeding only when every element translates
(used to state that all members of a declaration are supported). -/
def mapAll {α β : Type} (f : α → Option β) : List α → Option (List β)
  | [] => some []
  | a :: rest =>
    match f a, mapAll f rest with
    | some b, some bs => some (b :: bs)
    | _, _ => none

/-! ## Helper lemmas -/

theorem comment_route_some_iff (text r : String) :
    comment_route text = some r ↔
      ∃ t0 rest, tokenize text = t0 :: r :: rest ∧ strContains t0 "route" = true := by
  unfold comment_route
  cases htok : tokenize text with
  | nil => simp
  | cons t0 rest =>
    cases hc : strContains t0 "route" with
    | false =>
      simp only [hc, Bool.false_eq_true, if_false]
      constructor
      · intro h; exact absurd h (by simp)
      · rintro ⟨t0', rest', heq, hc'⟩
        rcases List.cons.injEq .. ▸ heq with ⟨rfl, -⟩
        rw [hc'] at hc
        exact absurd hc (by simp)
    | true =>
      simp only [hc, if_true]
      cases rest with
      | nil =>
        constructor
        · intro h; exact absurd h (by simp)
        · rintro ⟨t0', rest', heq, -⟩
          rcases List.cons.injEq .. ▸ heq with ⟨-, h2⟩
          exact absurd h2 (by simp)
      | cons r1 rest1 =>
        constructor
        · intro h
          have : r1 = r := by injection h
          subst this
          exact ⟨t0, rest1, rfl, hc⟩
        · rintro ⟨t0', rest', heq, -⟩
          rcases List.cons.injEq .. ▸ heq with ⟨-, h2⟩
          rcases List.cons.injEq .. ▸ h2 with ⟨rfl, -⟩
          rfl

theorem mem_tokenize_ne_empty (s t : String) (h : t ∈ tokenize s) : t ≠ "" := by
  unfold tokenize at h
  simp only [List.mem_map] at h
  obtain ⟨l, hl, rfl⟩ := h
  simp only [List.mem_filter] at hl
  obtain ⟨-, hne⟩ := hl
  intro heq
  have hnil : l = [] := congrArg String.data heq
  subst hnil
  simp at hne

theorem comment_route_some_ne (text r : String)
    (h : comment_route text = some r) : r ≠ "" := by
  obtain ⟨t0, rest, htok, -⟩ := (comment_route_some_iff text r).mp h
  have hm : r ∈ tokenize text := by
    rw [htok]; exact List.mem_cons_of_mem _ (List.mem_cons_self r rest)
  exact mem_tokenize_ne_empty text r hm

theorem process_comment_entity_route (body : List Statement) (c : Comment)
    (e : Entity) (h : process_comment body c = some (some e)) :
    ∃ r, comment_route c.text = some r ∧ e.route = r := by
  unfold process_comment at h
  cases hr : comment_route c.text with
  | none => rw [hr] at h; exact absurd h (by simp)
  | some r =>
    rw [hr] at h
    refine ⟨r, rfl, ?_⟩
    cases hf : body.find? (fun s => s.span_start == c.attached_to) with
    | none => rw [hf] at h; exact absurd h (by simp)
    | some st =>
      rw [hf] at h
      dsimp only at h
      cases hk : st.kind with
      | NonDecl => rw [hk] at h; exact absurd h (by simp)
      | Decl d =>
        rw [hk] at h
        cases d with
        | TSInterfaceDeclaration iface =>
          have : ({ route := r, props := extract_props iface.body } : Entity) = e := by
            injection h with h'; injection h'
          rw [← this]
        | OtherDeclaration => exact absurd h (by simp)

theorem extract_comments_route_ne (body : List Statement) (cs : List Comment) :
    ∀ es, extract_comments body cs = some es → ∀ e ∈ es, e.route ≠ "" := by
  induction cs with
  | nil =>
    intro es h e he
    unfold extract_comments at h
    injection h with h'
    subst h'
    exact absurd he (by simp)
  | cons c rest ih =>
    intro es h e he
    unfold extract_comments at h
    cases hp : process_comment body c with
    | none => rw [hp] at h; exact absurd h (by simp)
    | some o =>
      rw [hp] at h
      cases o with
      | none => exact ih es h e he
      | some e1 =>
        cases hrest : extract_comments body rest with
        | none => rw [hrest] at h; exact absurd h (by simp)
        | some es1 =>
          rw [hrest] at h
          simp only [Option.map_some'] at h
          injection h with h'
          subst h'
          rcases List.mem_cons.mp he with rfl | hmem
          · obtain ⟨r, hr, hroute⟩ := process_comment_entity_route body c e hp
            rw [hroute]
            exact comment_route_some_ne c.text r hr
          · exact ih es1 hrest e hmem

theorem extract_props_eq_filterMap (sigs : List TSSignature) :
    extract_props sigs = sigs.filterMap memberProp := by
  induction sigs with
  | nil => rfl
  | cons m rest ih =>
    cases m with
    | OtherSignature => simpa [extract_props, memberProp] using ih
    | TSPropertySignature sig =>
      obtain ⟨kn, opt, ta⟩ := sig
      cases kn with
      | none => simpa [extract_props, memberProp] using ih
      | some n =>
        cases ta with
        | none => simpa [extract_props, memberProp] using ih
        | some t =>
          cases t <;>
            simpa [extract_props, memberProp, primOf] using ih

theorem mapAll_eq_filterMap {α β : Type} (f : α → Option β) (l : List α) :
    ∀ bs, mapAll f l = some bs → l.filterMap f = bs ∧ bs.length = l.length := by
  induction l with
  | nil =>
    intro bs h
    unfold mapAll at h
    injection h with h'
    subst h'
    exact ⟨rfl, rfl⟩
  | cons a rest ih =>
    intro bs h
    unfold mapAll at h
    cases ha : f a with
    | none => rw [ha] at h; exact absurd h (by simp)
    | some b =>
      rw [ha] at h
      cases hrest : mapAll f rest with
      | none => rw [hrest] at h; exact absurd h (by simp)
      | some bs1 =>
        rw [hrest] at h
        dsimp only at h
        injection h with h'
        subst h'
        obtain ⟨h1, h2⟩ := ih bs1 hrest
        constructor
        · simp [List.filterMap_cons, ha, h1]
        · simp [h2]

theorem extract_comments_skip (body : List Statement) (cs : List Comment)
    (hskip : ∀ c ∈ cs, comment_route c.text = none) :
    extract_comments body cs = some [] := by
  induction cs with
  | nil => rfl
  | cons c rest ih =>
    have hc : comment_route c.text = none := hskip c (List.mem_cons_self c rest)
    have hrest : ∀ c' ∈ rest, comment_route c'.text = none :=
      fun c' h' => hskip c' (List.mem_cons_of_mem c h')
    unfold extract_comments process_comment
    rw [hc]
    exact ih hrest

theorem process_comment_skip (body : List Statement) (c : Comment)
    (hc : comment_route c.text = none) : process_comment body c = some none := by
  unfold process_comment
  rw [hc]

theorem extract_comments_cons (body : List Statement) (c : Comment)
    (l : List Comment) :
    extract_comments body (c :: l) =
      match process_comment body c with
      | none => none
      | some none => extract_comments body l
      | some (some e) => (extract_comments body l).map (fun es => e :: es) :=
  rfl

theorem extract_comments_cons_skip (body : List Statement) (c : Comment)
    (l : List Comment) (hc : comment_route c.text = none) :
    extract_comments body (c :: l) = extract_comments body l := by
  rw [extract_comments_cons, process_comment_skip body c hc]

theorem extract_comments_append_skip (body : List Statement)
    (pre cs : List Comment)
    (hskip : ∀ c ∈ pre, comment_route c.text = none) :
    extract_comments body (pre ++ cs) = extract_comments body cs := by
  induction pre with
  | nil => rfl
  | cons c rest ih =>
    have hc : comment_route c.text = none := hskip c (List.mem_cons_self c rest)
    have hrest : ∀ c' ∈ rest, comment_route c'.text = none :=
      fun c' h' => hskip c' (List.mem_cons_of_mem c h')
    rw [List.cons_append, extract_comments_cons_skip body c (rest ++ cs) hc]
    exact ih hrest

theorem dchar_isDigit (d : Fin 10) :
    (Char.ofNat (48 + d.val)).isDigit = true := by
  revert d; decide

theorem dchar_toNat (d : Fin 10) :
    (Char.ofNat (48 + d.val)).toNat = 48 + d.val := by
  revert d; decide

theorem fill_format_three (digit : Nat → Fin 10) :
    fill_format digit 0 "###".toList =
      [Char.ofNat (48 + (digit 0).val), Char.ofNat (48 + (digit 1).val),
       Char.ofNat (48 + (digit 2).val)] := rfl

theorem parse_i64_digits (c0 c1 c2 : Char) (h0 : c0.isDigit = true)
    (h1 : c1.isDigit = true) (h2 : c2.isDigit = true) :
    parse_i64 [c0, c1, c2] =
      some (Int.ofNat (((c0.toNat - 48) * 10 + (c1.toNat - 48)) * 10 +
        (c2.toNat - 48))) := by
  unfold parse_i64
  simp [h0, h1, h2]

theorem fake_value_eq (ty : TProp) (d : RandomDraw) :
    fake_value ty d = some (fvalue ty d) := by
  cases ty with
  | Boolean => rfl
  | String => rfl
  | Number =>
    show (parse_i64 (fill_format d.digit 0 "###".toList)).map JValue.num = _
    rw [fill_format_three,
      parse_i64_digits _ _ _ (dchar_isDigit _) (dchar_isDigit _) (dchar_isDigit _),
      dchar_toNat, dchar_toNat, dchar_toNat, Option.map_some']
    simp only [Nat.add_sub_cancel_left]
    rfl

theorem gen_loop_eq (draws : Nat → RandomDraw) (props : List Prop') :
    ∀ (i : Nat) (acc : List (String × JValue)),
    gen_loop draws props i acc =
      some ((enumPairs i props).foldl
        (fun a x => setKey a x.2.id (fvalue x.2.ty (draws x.1))) acc) := by
  induction props with
  | nil => intro i acc; rfl
  | cons p rest ih =>
    intro i acc
    show (match fake_value p.ty (draws i) with
      | none => none
      | some v => gen_loop draws rest (i + 1) (setKey acc p.id v)) = _
    rw [fake_value_eq]
    dsimp only
    rw [ih]
    rfl

theorem getKey_setKey (k name : String) (v : JValue) :
    ∀ acc, getKey (setKey acc k v) name =
      if k = name then some v else getKey acc name := by
  intro acc
  induction acc with
  | nil => rfl
  | cons kv rest ih =>
    obtain ⟨k', v'⟩ := kv
    by_cases h1 : k' = k
    · subst h1
      simp only [setKey, if_pos rfl]
      by_cases h2 : k' = name
      · subst h2; simp [getKey]
      · simp [getKey, h2]
    · simp only [setKey, if_neg h1]
      by_cases h2 : k' = name
      · subst h2
        have h3 : ¬ k = k' := fun h => h1 h.symm
        simp [getKey, if_neg h3]
      · simp [getKey, h2, ih]

theorem setKey_keys_of_not_mem (k : String) (v : JValue) :
    ∀ acc, k ∉ acc.map Prod.fst →
      (setKey acc k v).map Prod.fst = acc.map Prod.fst ++ [k] := by
  intro acc
  induction acc with
  | nil => intro _; rfl
  | cons kv rest ih =>
    obtain ⟨k', v'⟩ := kv
    intro hmem
    simp only [List.map_cons, List.mem_cons] at hmem
    push_neg at hmem
    obtain ⟨h1, h2⟩ := hmem
    have h1' : ¬ k' = k := fun h => h1 h.symm
    simp [setKey, if_neg h1', ih h2]

theorem setKey_keys_of_mem (k : String) (v : JValue) :
    ∀ acc, k ∈ acc.map Prod.fst →
      (setKey acc k v).map Prod.fst = acc.map Prod.fst := by
  intro acc
  induction acc with
  | nil => intro h; exact absurd h (by simp)
  | cons kv rest ih =>
    obtain ⟨k', v'⟩ := kv
    intro hmem
    by_cases h1 : k' = k
    · subst h1; simp [setKey]
    · simp only [List.map_cons, List.mem_cons] at hmem
      rcases hmem with h | h
      · exact absurd h.symm h1
      · simp [setKey, if_neg h1, ih h]

theorem mem_keys_setKey (k name : String) (v : JValue) :
    ∀ acc, name ∈ (setKey acc k v).map Prod.fst →
      name ∈ acc.map Prod.fst ∨ name = k := by
  intro acc
  induction acc with
  | nil => intro h; simp only [setKey, List.map_cons, List.map_nil] at h; right; simpa using h
  | cons kv rest ih =>
    obtain ⟨k', v'⟩ := kv
    intro h
    by_cases h1 : k' = k
    · subst h1
      simp only [setKey, if_pos rfl, List.map_cons, List.mem_cons] at h
      left; simpa using h
    · simp only [setKey, if_neg h1, List.map_cons, List.mem_cons] at h
      rcases h with h | h
      · left; simp [h]
      · rcases ih h with h' | h'
        · left; simp [h']
        · right; exact h'

theorem setKey_keys_nodup (k : String) (v : JValue) :
    ∀ acc, (acc.map Prod.fst).Nodup → ((setKey acc k v).map Prod.fst).Nodup := by
  intro acc
  induction acc with
  | nil => intro _; simp [setKey]
  | cons kv rest ih =>
    obtain ⟨k', v'⟩ := kv
    intro hnd
    simp only [List.map_cons, List.nodup_cons] at hnd
    obtain ⟨hk', hrest⟩ := hnd
    by_cases h1 : k' = k
    · have hs : setKey ((k', v') :: rest) k v = (k', v) :: rest := by
        simp [setKey, h1]
      rw [hs]
      simp only [List.map_cons, List.nodup_cons]
      exact ⟨hk', hrest⟩
    · simp only [setKey, if_neg h1, List.map_cons, List.nodup_cons]
      refine ⟨?_, ih hrest⟩
      intro hmem
      rcases mem_keys_setKey k k' v rest hmem with h | h
      · exact hk' h
      · exact h1 h

theorem enumPairs_map_id (props : List Prop') :
    ∀ i, (enumPairs i props).map (fun x => x.2.id) = props.map Prop'.id := by
  induction props with
  | nil => intro i; rfl
  | cons p rest ih => intro i; simp [enumPairs, ih]

theorem foldl_setKey_keys (draws : Nat → RandomDraw) (l : List (Nat × Prop')) :
    ∀ acc, (acc.map Prod.fst ++ l.map (fun x => x.2.id)).Nodup →
      ((l.foldl (fun a x => setKey a x.2.id (fvalue x.2.ty (draws x.1)))
          acc).map Prod.fst) =
        acc.map Prod.fst ++ l.map (fun x => x.2.id) := by
  induction l with
  | nil => intro acc _; simp
  | cons x rest ih =>
    intro acc hnd
    simp only [List.map_cons] at hnd
    have hx : x.2.id ∉ acc.map Prod.fst := by
      rcases List.nodup_append.mp hnd with ⟨-, -, hdisj⟩
      intro hmem
      exact hdisj hmem (List.mem_cons_self _ _)
    have hkeys := setKey_keys_of_not_mem x.2.id (fvalue x.2.ty (draws x.1)) acc hx
    simp only [List.foldl_cons]
    rw [ih (setKey acc x.2.id (fvalue x.2.ty (draws x.1)))
      (by rw [hkeys, List.append_assoc, List.singleton_append]; exact hnd)]
    rw [hkeys, List.append_assoc, List.singleton_append, List.map_cons]

theorem foldl_setKey_keys_nodup (draws : Nat → RandomDraw)
    (l : List (Nat × Prop')) :
    ∀ acc, (acc.map Prod.fst).Nodup →
      ((l.foldl (fun a x => setKey a x.2.id (fvalue x.2.ty (draws x.1)))
          acc).map Prod.fst).Nodup := by
  induction l with
  | nil => intro acc h; exact h
  | cons x rest ih =>
    intro acc h
    simp only [List.foldl_cons]
    exact ih _ (setKey_keys_nodup x.2.id (fvalue x.2.ty (draws x.1)) acc h)

theorem lastOf_cons_exists {α : Type} (a : α) (l : List α) :
    ∃ b, lastOf (a :: l) = some b := by
  induction l generalizing a with
  | nil => exact ⟨a, rfl⟩
  | cons c rest ih => exact ih c

theorem lastOf_cons {α : Type} (a : α) (l : List α) :
    lastOf (a :: l) =
      match lastOf l with
      | none => some a
      | some b => some b := by
  cases l with
  | nil => rfl
  | cons c rest =>
    obtain ⟨b, hb⟩ := lastOf_cons_exists c rest
    rw [show lastOf (a :: c :: rest) = lastOf (c :: rest) from rfl, hb]

theorem foldl_setKey_getKey (draws : Nat → RandomDraw)
    (name : String) (l : List (Nat × Prop')) :
    ∀ acc, getKey
        (l.foldl (fun a x => setKey a x.2.id (fvalue x.2.ty (draws x.1))) acc)
        name =
      match lastOf (l.filter (fun x => decide (x.2.id = name))) with
      | some x => some (fvalue x.2.ty (draws x.1))
      | none => getKey acc name := by
  induction l with
  | nil => intro acc; rfl
  | cons x rest ih =>
    intro acc
    simp only [List.foldl_cons, List.filter_cons]
    by_cases hx : x.2.id = name
    · rw [if_pos (by simp [hx]), ih, lastOf_cons]
      cases hlast : lastOf (rest.filter (fun y => decide (y.2.id = name))) with
      | none =>
        dsimp only
        rw [getKey_setKey]
        simp [hx]
      | some y => rfl
    · rw [if_neg (by simp [hx]), ih]
      cases hlast : lastOf (rest.filter (fun y => decide (y.2.id = name))) with
      | none =>
        dsimp only
        rw [getKey_setKey]
        simp [hx]
      | some y => rfl

theorem getKey_some_mem_keys (name : String) :
    ∀ (fields : List (String × JValue)) v, getKey fields name = some v →
      name ∈ fields.map Prod.fst := by
  intro fields
  induction fields with
  | nil => intro v h; exact absurd h (by simp [getKey])
  | cons kv rest ih =>
    obtain ⟨k', v'⟩ := kv
    intro v h
    by_cases h1 : k' = name
    · simp [h1]
    · simp only [getKey, if_neg h1] at h
      simp only [List.map_cons, List.mem_cons]
      right
      exact ih v h

theorem filter_key_nil (name : String) :
    ∀ (fields : List (String × JValue)), name ∉ fields.map Prod.fst →
      fields.filter (fun kv => decide (kv.1 = name)) = [] := by
  intro fields
  induction fields with
  | nil => intro _; rfl
  | cons kv rest ih =>
    obtain ⟨k', v'⟩ := kv
    intro hmem
    simp only [List.map_cons, List.mem_cons] at hmem
    push_neg at hmem
    obtain ⟨h1, h2⟩ := hmem
    have h1' : ¬ k' = name := fun h => h1 h.symm
    simp only [List.filter_cons, decide_eq_true_eq, h1', if_false]
    exact ih h2

theorem filter_key_length_one (name : String) :
    ∀ (fields : List (String × JValue)), (fields.map Prod.fst).Nodup →
      name ∈ fields.map Prod.fst →
      (fields.filter (fun kv => decide (kv.1 = name))).length = 1 := by
  intro fields
  induction fields with
  | nil => intro _ h; exact absurd h (by simp)
  | cons kv rest ih =>
    obtain ⟨k', v'⟩ := kv
    intro hnd hmem
    simp only [List.map_cons, List.nodup_cons] at hnd
    obtain ⟨hk', hrest⟩ := hnd
    by_cases h1 : k' = name
    · subst h1
      simp only [List.filter_cons]
      rw [if_pos (by simp), filter_key_nil k' rest hk']
      rfl
    · simp only [List.map_cons, List.mem_cons] at hmem
      rcases hmem with h | h
      · exact absurd h.symm h1
      · simp only [List.filter_cons, decide_eq_true_eq, h1, if_false]
        exact ih hrest h

/-! ## Claim theorems -/

/-- C1: for a parsed source unit whose comments contain exactly one
route-annotated comment (all others fail the route test), attached to an
interface declaration all of whose members are property signatures with
identifier names and supported primitive keyword types, extraction returns
exactly one Entity: its route is the comment's second token verbatim and
its properties are the members' names and primitive types, in declaration
order, one per member. -/
theorem single_annotated_interface_extraction
    (pre post : List Comment) (c : Comment) (body : List Statement)
    (errs : Bool) (t0 r : String) (ts : List String) (st : Statement)
    (iface : TSInterfaceDeclaration) (ps : List Prop')
    (hpre : ∀ c' ∈ pre, comment_route c'.text = none)
    (hpost : ∀ c' ∈ post, comment_route c'.text = none)
    (htok : tokenize c.text = t0 :: r :: ts)
    (hroute : strContains t0 "route" = true)
    (hfind : body.find? (fun s => s.span_start == c.attached_to) = some st)
    (hkind : st.kind =
      StatementKind.Decl (Declaration.TSInterfaceDeclaration iface))
    (hsup : mapAll memberProp iface.body = some ps) :
    parse_typescript_file ⟨⟨pre ++ c :: post, body⟩, errs⟩ =
      some [{ route := r, props := ps }] ∧
    ps.length = iface.body.length := by
  have hcr : comment_route c.text = some r := by
    rw [comment_route_some_iff]
    exact ⟨t0, ts, htok, hroute⟩
  obtain ⟨hfm, hlen⟩ := mapAll_eq_filterMap memberProp iface.body ps hsup
  refine ⟨?_, hlen⟩
  show extract_comments body (pre ++ c :: post) = _
  rw [extract_comments_append_skip body pre (c :: post) hpre,
    extract_comments_cons]
  have hpc : process_comment body c =
      some (some { route := r, props := ps }) := by
    unfold process_comment
    rw [hcr]
    dsimp only
    rw [hfind]
    dsimp only
    rw [hkind]
    dsimp only
    rw [extract_props_eq_filterMap, hfm]
  rw [hpc, extract_comments_skip body post hpost]
  rfl

/-- Witness for C1 at the spec's end-to-end example: `// route /users`
before `interface User { id: number; name: string; active: boolean }`. -/
theorem single_annotated_interface_extraction_witness :
    parse_typescript_file
      ⟨⟨[{ text := " route /users", attached_to := 0 }],
        [{ span_start := 0,
           kind := StatementKind.Decl (Declaration.TSInterfaceDeclaration
             ⟨[TSSignature.TSPropertySignature
                 ⟨some "id", false, some TSType.TSNumberKeyword⟩,
               TSSignature.TSPropertySignature
                 ⟨some "name", false, some TSType.TSStringKeyword⟩,
               TSSignature.TSPropertySignature
                 ⟨some "active", false, some TSType.TSBooleanKeyword⟩]⟩) }]⟩,
        false⟩ =
      some [{ route := "/users",
              props := [⟨"id", TProp.Number⟩, ⟨"name", TProp.String⟩,
                ⟨"active", TProp.Boolean⟩] }] ∧
    ([⟨"id", TProp.Number⟩, ⟨"name", TProp.String⟩,
      ⟨"active", TProp.Boolean⟩] : List Prop').length =
      ([TSSignature.TSPropertySignature
          ⟨some "id", false, some TSType.TSNumberKeyword⟩,
        TSSignature.TSPropertySignature
          ⟨some "name", false, some TSType.TSStringKeyword⟩,
        TSSignature.TSPropertySignature
          ⟨some "active", false, some TSType.TSBooleanKeyword⟩] :
        List TSSignature).length :=
  single_annotated_interface_extraction [] []
    { text := " route /users", attached_to := 0 }
    [{ span_start := 0,
       kind := StatementKind.Decl (Declaration.TSInterfaceDeclaration
         ⟨[TSSignature.TSPropertySignature
             ⟨some "id", false, some TSType.TSNumberKeyword⟩,
           TSSignature.TSPropertySignature
             ⟨some "name", false, some TSType.TSStringKeyword⟩,
           TSSignature.TSPropertySignature
             ⟨some "active", false, some TSType.TSBooleanKeyword⟩]⟩) }]
    false "route" "/users" [] _ _
    [⟨"id", TProp.Number⟩, ⟨"name", TProp.String⟩, ⟨"active", TProp.Boolean⟩]
    (fun c' h => absurd h (List.not_mem_nil c'))
    (fun c' h => absurd h (List.not_mem_nil c'))
    rfl rfl rfl rfl rfl

/-- C2 (the code violates the claim): a route comment attached to a
non-declaration statement (e.g. `// route /x` before `foo();`) makes
`parse_typescript_file` panic instead of silently skipping the comment:
`Statement::to_declaration` is `self.as_declaration().unwrap()` and the
unwrap fails.  The `none` result is the model of that panic. -/
theorem extraction_panics_on_non_declaration_statement :
    parse_typescript_file
      ⟨⟨[{ text := " route /x", attached_to := 0 }],
        [{ span_start := 0, kind := StatementKind.NonDecl }]⟩, false⟩ =
      none := rfl

/-- C3 counterexample: an optional property with a supported primitive
annotation (`a?: number`) is NOT dropped — extraction keeps it, because
the code never reads the optional marker. -/
theorem optional_property_kept_cex :
    parse_typescript_file
      ⟨⟨[{ text := " route /x", attached_to := 0 }],
        [{ span_start := 0,
           kind := StatementKind.Decl (Declaration.TSInterfaceDeclaration
             ⟨[TSSignature.TSPropertySignature
                 ⟨some "a", true, some TSType.TSNumberKeyword⟩]⟩) }]⟩,
        false⟩ =
      some [{ route := "/x", props := [⟨"a", TProp.Number⟩] }] := rfl

/-- C3 amended: the optional marker does not affect extraction — a property
signature with an identifier name and a supported primitive keyword
annotation is kept (with its name and type) whatever its optional marker,
and a property whose annotation is unsupported is dropped while the rest
of the members are still processed. -/
theorem optional_marker_not_dropped (name : String) (opt : Bool) (t : TSType)
    (rest : List TSSignature) :
    (∀ p, primOf t = some p →
      extract_props
          (TSSignature.TSPropertySignature ⟨some name, opt, some t⟩ :: rest) =
        { id := name, ty := p } :: extract_props rest) ∧
    (primOf t = none →
      extract_props
          (TSSignature.TSPropertySignature ⟨some name, opt, some t⟩ :: rest) =
        extract_props rest) := by
  constructor
  · intro p hp
    cases t <;> simp_all [extract_props, primOf]
  · intro hp
    cases t <;> simp_all [extract_props, primOf]

/-- Witness for C3's amended claim: `a?: number` is kept as a Number
property. -/
theorem optional_marker_not_dropped_witness :
    extract_props
        [TSSignature.TSPropertySignature
          ⟨some "a", true, some TSType.TSNumberKeyword⟩] =
      [{ id := "a", ty := TProp.Number }] :=
  (optional_marker_not_dropped "a" true TSType.TSNumberKeyword []).1
    TProp.Number rfl

/-- C4 counterexample: the comment text `"route\t/x"` separates its two
would-be tokens with a tab.  Splitting on any whitespace would yield tokens
`["route", "/x"]` and route `/x`; the code splits on the space character
only, gets the single token `["route\t/x"]`, finds no second token, and
extracts no route at all. -/
theorem space_only_tokenization_cex :
    tokenize "route\t/x" = ["route\t/x"] ∧
    wsTokenize "route\t/x" = ["route", "/x"] ∧
    tokenize "route\t/x" ≠ wsTokenize "route\t/x" ∧
    comment_route "route\t/x" = none :=
  ⟨rfl, rfl, by decide, rfl⟩

/-- C4 amended: a comment's text is tokenized by splitting on the space
character only (tabs and newlines are not separators), with empty tokens
discarded; a route is extracted exactly when the first token contains
`"route"` and a second token exists, and that second token becomes the
route verbatim. -/
theorem route_token_selection (text r : String) :
    comment_route text = some r ↔
      ∃ t0 rest, tokenize text = t0 :: r :: rest ∧
        strContains t0 "route" = true :=
  comment_route_some_iff text r

/-- C6 counterexample: a unit whose parser reports failure
(`errors = true`) does not abort catalog construction — `scan_dir`
returns `ok` and the (possibly partial) program is processed normally,
contributing its entities to the catalog. -/
theorem parse_errors_ignored_cex :
    scan_dir [FsEntry.file "ts"
      ⟨⟨[{ text := " route /x", attached_to := 0 }],
        [{ span_start := 0,
           kind := StatementKind.Decl (Declaration.TSInterfaceDeclaration
             ⟨[TSSignature.TSPropertySignature
                 ⟨some "a", false, some TSType.TSNumberKeyword⟩]⟩) }]⟩,
        true⟩] =
      Except.ok [{ route := "/x", props := [⟨"a", TProp.Number⟩] }] := rfl

/-- C6 amended: catalog construction ignores the parser's error report
entirely — clearing every visited unit's error flag never changes the
result of `scan_dir`; only file-system failures (and the extraction panic)
abort the scan. -/
theorem scan_dir_ignores_parse_errors (entries : List FsEntry) :
    scan_dir (entries.map clear_errors) = scan_dir entries := by
  induction entries with
  | nil => rfl
  | cons e rest ih =>
    cases e with
    | ioError => rfl
    | file ext ret =>
      simp only [List.map_cons, clear_errors, scan_dir]
      have hp : parse_typescript_file { program := ret.program, errors := false } =
          parse_typescript_file ret := rfl
      rw [hp, ih]

/-- C5: when an Entity's property names are pairwise distinct, the keys of
the synthesized JSON object are exactly the property names, in declaration
order. -/
theorem json_keys_in_declaration_order (entity : Entity)
    (draws : Nat → RandomDraw) (fields : List (String × JValue))
    (hnd : (entity.props.map Prop'.id).Nodup)
    (hgen : generate_fake_data entity draws = some (JValue.obj fields)) :
    fields.map Prod.fst = entity.props.map Prop'.id := by
  unfold generate_fake_data at hgen
  rw [gen_loop_eq] at hgen
  simp only [Option.map_some'] at hgen
  injection hgen with h1
  injection h1 with h2
  have hkeys := foldl_setKey_keys draws (enumPairs 0 entity.props) []
    (by simpa [enumPairs_map_id] using hnd)
  rw [← h2, hkeys]
  simp [enumPairs_map_id]

/-- Witness for C5 at the `/users` example entity. -/
theorem json_keys_in_declaration_order_witness :
    ([("id", JValue.num 333), ("name", JValue.str "lorem"),
      ("active", JValue.bool true)].map Prod.fst) =
      (({ route := "/users",
          props := [⟨"id", TProp.Number⟩, ⟨"name", TProp.String⟩,
            ⟨"active", TProp.Boolean⟩] } : Entity).props.map Prop'.id) :=
  json_keys_in_declaration_order
    { route := "/users",
      props := [⟨"id", TProp.Number⟩, ⟨"name", TProp.String⟩,
        ⟨"active", TProp.Boolean⟩] }
    (fun _ => ⟨true, fun _ => (3 : Fin 10), "lorem"⟩)
    [("id", JValue.num 333), ("name", JValue.str "lorem"),
      ("active", JValue.bool true)]
    (by decide) rfl

/-- C7: value synthesis never fails or panics — for every entity and every
sequence of random draws the JSON object is produced — and every value
synthesized for a property type-checks against that property's type
(Boolean → a boolean, Number → an integer, String → non-empty text,
granted the random-word collaborator returns non-empty words). -/
theorem synthesis_total_and_typed (entity : Entity) (draws : Nat → RandomDraw)
    (hw : ∀ i, (draws i).word.isEmpty = false) :
    (∃ fields, generate_fake_data entity draws = some (JValue.obj fields)) ∧
    ∀ p ∈ entity.props, ∀ i, ∃ v, fake_value p.ty (draws i) = some v ∧
      typechecks p.ty v = true := by
  constructor
  · refine ⟨(enumPairs 0 entity.props).foldl
        (fun a x => setKey a x.2.id (fvalue x.2.ty (draws x.1))) [], ?_⟩
    unfold generate_fake_data
    rw [gen_loop_eq]
    rfl
  · intro p hp i
    refine ⟨fvalue p.ty (draws i), fake_value_eq _ _, ?_⟩
    cases p.ty with
    | Boolean => rfl
    | Number => rfl
    | String =>
      show typechecks TProp.String (JValue.str (draws i).word) = true
      simp [typechecks, hw i]

/-- Witness for C7 at the `/users` example entity with constant draws. -/
theorem synthesis_total_and_typed_witness :
    (∃ fields, generate_fake_data
        { route := "/users",
          props := [⟨"id", TProp.Number⟩, ⟨"name", TProp.String⟩,
            ⟨"active", TProp.Boolean⟩] }
        (fun _ => ⟨true, fun _ => (3 : Fin 10), "lorem"⟩) =
      some (JValue.obj fields)) ∧
    ∀ p ∈ ([⟨"id", TProp.Number⟩, ⟨"name", TProp.String⟩,
        ⟨"active", TProp.Boolean⟩] : List Prop'),
      ∀ i : Nat, ∃ v, fake_value p.ty
          ((fun _ : Nat => (⟨true, fun _ => (3 : Fin 10), "lorem"⟩ : RandomDraw)) i) =
        some v ∧ typechecks p.ty v = true :=
  synthesis_total_and_typed
    { route := "/users",
      props := [⟨"id", TProp.Number⟩, ⟨"name", TProp.String⟩,
        ⟨"active", TProp.Boolean⟩] }
    (fun _ => ⟨true, fun _ => (3 : Fin 10), "lorem"⟩)
    (fun _ => rfl)

/-- C8: every Entity extraction produces has a non-empty route — the route
is a token of the comment's tokenization, and empty tokens were discarded
before the route was read. -/
theorem entity_routes_nonempty (ret : ParserReturn) (es : List Entity)
    (h : parse_typescript_file ret = some es) :
    ∀ e ∈ es, e.route ≠ "" :=
  extract_comments_route_ne ret.program.body ret.program.comments es h

/-- Witness for C8 at a one-comment, one-interface unit. -/
theorem entity_routes_nonempty_witness :
    ({ route := "/x", props := [⟨"a", TProp.Number⟩] } : Entity).route ≠ "" :=
  entity_routes_nonempty
    ⟨⟨[{ text := " route /x", attached_to := 0 }],
      [{ span_start := 0,
         kind := StatementKind.Decl (Declaration.TSInterfaceDeclaration
           ⟨[TSSignature.TSPropertySignature
               ⟨some "a", false, some TSType.TSNumberKeyword⟩]⟩) }]⟩, false⟩
    [{ route := "/x", props := [⟨"a", TProp.Number⟩] }]
    rfl
    { route := "/x", props := [⟨"a", TProp.Number⟩] }
    (List.mem_cons_self _ _)

/-- C9: when a name occurs among an Entity's properties (in particular when
it occurs two or more times), the synthesized JSON object holds exactly one
field with that name, and its value is the one generated for the last
property with that name, from the draw at that property's position. -/
theorem duplicate_names_last_wins (entity : Entity)
    (draws : Nat → RandomDraw) (fields : List (String × JValue))
    (name : String) (j : Nat) (p : Prop')
    (hgen : generate_fake_data entity draws = some (JValue.obj fields))
    (hlast : lastOf ((enumPairs 0 entity.props).filter
      (fun x => decide (x.2.id = name))) = some (j, p)) :
    (fields.filter (fun kv => decide (kv.1 = name))).length = 1 ∧
    getKey fields name = some (fvalue p.ty (draws j)) := by
  unfold generate_fake_data at hgen
  rw [gen_loop_eq] at hgen
  simp only [Option.map_some'] at hgen
  injection hgen with h1
  injection h1 with h2
  have hget : getKey fields name = some (fvalue p.ty (draws j)) := by
    rw [← h2, foldl_setKey_getKey, hlast]
  refine ⟨?_, hget⟩
  apply filter_key_length_one
  · rw [← h2]
    exact foldl_setKey_keys_nodup draws _ [] (by simp)
  · exact getKey_some_mem_keys name fields _ hget

/-- Witness for C9 at an entity with a duplicated property name
(`a: number; a: boolean`): one field, holding the boolean generated for
the second (last) occurrence. -/
theorem duplicate_names_last_wins_witness :
    (([("a", JValue.bool true)] : List (String × JValue)).filter
      (fun kv => decide (kv.1 = "a"))).length = 1 ∧
    getKey [("a", JValue.bool true)] "a" =
      some (fvalue TProp.Boolean ⟨true, fun _ => (3 : Fin 10), "lorem"⟩) :=
  duplicate_names_last_wins
    { route := "/dup", props := [⟨"a", TProp.Number⟩, ⟨"a", TProp.Boolean⟩] }
    (fun _ => ⟨true, fun _ => (3 : Fin 10), "lorem"⟩)
    [("a", JValue.bool true)] "a" 1 ⟨"a", TProp.Boolean⟩
    rfl rfl

/-- C10: the value synthesized for a Number property is always an integer
between 0 and 999 inclusive — three random decimal digits filled into the
fixed-width pattern `"###"` and parsed back. -/
theorem number_synthesis_in_range (d : RandomDraw) :
    ∃ n : Int, fake_value TProp.Number d = some (JValue.num n) ∧
      0 ≤ n ∧ n ≤ 999 := by
  refine ⟨Int.ofNat
    (((d.digit 0).val * 10 + (d.digit 1).val) * 10 + (d.digit 2).val),
    fake_value_eq TProp.Number d, ?_, ?_⟩
  all_goals
    have h0 := (d.digit 0).isLt
    have h1 := (d.digit 1).isLt
    have h2 := (d.digit 2).isLt
    simp only [Int.ofNat_eq_natCast]
    omega
